import Mathlib

/-!
Verification development for the python-osc-parser repository.

The repository ships a pure data model (oscparser/types.py), a test suite, and a
demonstration script.  The codec modules themselves (oscparser.encode,
oscparser.decode, oscparser.ctx, oscparser.processing) are not part of the
sources available here, so the codec is modelled from the specification
document; every definition modelled that way carries a doc comment saying so.
Byte sequences are modelled as lists of natural numbers (each produced byte is
below 256), IEEE float arguments are carried as their raw big-endian bit
patterns, and text strings on the wire are carried as their encoded byte
sequences.
-/

/-- Padding length needed to bring a field of n bytes to a multiple of 4. -/
def padLen (n : Nat) : Nat := (4 - n % 4) % 4

/-- Modelled from the spec: OSC padded c-string encoding (section 4.3) as
implemented by the missing oscparser codec modules; the payload bytes are
followed by a NUL terminator and NUL padding to a multiple of 4 bytes. -/
def cstr (s : List Nat) : List Nat := s ++ 0 :: List.replicate (padLen (s.length + 1)) 0

/-- Big-endian byte decomposition of a natural number into k bytes. -/
def beBytes : Nat → Nat → List Nat
  | 0, _ => []
  | k + 1, n => beBytes k (n / 256) ++ [n % 256]

/-- Big-endian value of a byte sequence. -/
def beVal (bs : List Nat) : Nat := bs.foldl (fun a b => a * 256 + b) 0

/-- Interpretation of a 32-bit big-endian word as a signed integer. -/
def i32val (n : Nat) : Int := if n < 2147483648 then (n : Int) else (n : Int) - 4294967296

/-- Interpretation of a 64-bit big-endian word as a signed integer. -/
def i64val (n : Nat) : Int :=
  if n < 9223372036854775808 then (n : Int) else (n : Int) - 18446744073709551616

/-- Two-complement 32-bit image of an integer. -/
def intTo32 (v : Int) : Nat := (v % 4294967296).toNat

/-- Two-complement 64-bit image of an integer. -/
def intTo64 (v : Int) : Nat := (v % 18446744073709551616).toNat

/-- Modelled from the spec: the error taxonomy of section 7 used by the missing
oscparser codec modules. -/
inductive OSCError where
  | InsufficientData
  | InvalidAddress
  | UnknownTypeTag
  | UnknownValueKind
  | UnbalancedArray
  | MalformedString
  deriving DecidableEq, Repr

/-- Modelled from the spec: the argument tree of the packet data model
(section 3).  Strings and symbols are carried as their byte sequences, float
arguments as raw big-endian bit patterns, and the timetag as its 64-bit wire
value. -/
inductive OSCArg where
  | int32 (v : Int)
  | float32 (v : Nat)
  | str (s : List Nat)
  | blob (b : List Nat)
  | boolT
  | boolF
  | nilArg
  | impulseArg
  | int64 (v : Int)
  | float64 (v : Nat)
  | timetag (v : Nat)
  | charArg (c : Nat)
  | symbol (s : List Nat)
  | rgba (rv gv bv av : Nat)
  | midi (port status data1 data2 : Nat)
  | arr (items : List OSCArg)

/-- Modelled from the spec: the Packet type, a message or a recursive bundle
(section 3). -/
inductive OSCPacket where
  | message (address : List Nat) (args : List OSCArg)
  | bundle (timetag : Nat) (elements : List OSCPacket)

/-- Modelled from the spec: the read_cstring operation of the byte cursor
(section 4.1) in the missing oscparser.ctx module; reads bytes up to the first
NUL and skips NUL padding up to the next multiple-of-4 boundary.  Text
validity of the bytes is not constrained in this byte-level model, so the
MalformedString failure of the source never fires here. -/
def readCString (bytes : List Nat) : Except OSCError (List Nat × List Nat) :=
  match bytes.dropWhile (fun b => b ≠ 0) with
  | [] => .error .InsufficientData
  | _ :: rest =>
    let s := bytes.takeWhile (fun b => b ≠ 0)
    .ok (s, rest.drop (padLen (s.length + 1)))

/-- Reads four bytes from the front of a buffer. -/
def take4 (bytes : List Nat) : Option (Nat × Nat × Nat × Nat × List Nat) :=
  match bytes with
  | a :: b :: c :: d :: r => some (a, b, c, d, r)
  | _ => none

/-- Reads eight bytes from the front of a buffer. -/
def take8 (bytes : List Nat) : Option (Nat × Nat × Nat × Nat × Nat × Nat × Nat × Nat × List Nat) :=
  match bytes with
  | a :: b :: c :: d :: e :: f :: g :: h :: r => some (a, b, c, d, e, f, g, h, r)
  | _ => none

/-- Big-endian value of four bytes. -/
def q4 (a b c d : Nat) : Nat := ((a * 256 + b) * 256 + c) * 256 + d

/-- Big-endian value of eight bytes. -/
def q8 (a b c d e f g h : Nat) : Nat :=
  ((((((a * 256 + b) * 256 + c) * 256 + d) * 256 + e) * 256 + f) * 256 + g) * 256 + h

/-- Modelled from the spec: the per-tag argument decoders registered at
start-up by the missing oscparser.processing.osc.handlers module, one branch
per built-in type tag of section 3; dispatch on an unregistered tag fails
with UnknownTypeTag. -/
def decodeAtom (tag : Nat) (bytes : List Nat) : Except OSCError (OSCArg × List Nat) :=
  match tag with
  | 105 =>
    match take4 bytes with
    | none => .error .InsufficientData
    | some (a, b, c, d, r) => .ok (.int32 (i32val (q4 a b c d)), r)
  | 102 =>
    match take4 bytes with
    | none => .error .InsufficientData
    | some (a, b, c, d, r) => .ok (.float32 (q4 a b c d), r)
  | 115 =>
    match readCString bytes with
    | .error e => .error e
    | .ok (s, r) => .ok (.str s, r)
  | 98 =>
    match take4 bytes with
    | none => .error .InsufficientData
    | some (a, b, c, d, r) =>
      let L := q4 a b c d
      if r.length < L then .error .InsufficientData
      else .ok (.blob (r.take L), (r.drop L).drop (padLen L))
  | 84 => .ok (.boolT, bytes)
  | 70 => .ok (.boolF, bytes)
  | 78 => .ok (.nilArg, bytes)
  | 73 => .ok (.impulseArg, bytes)
  | 104 =>
    match take8 bytes with
    | none => .error .InsufficientData
    | some (a, b, c, d, e, f, g, h, r) => .ok (.int64 (i64val (q8 a b c d e f g h)), r)
  | 100 =>
    match take8 bytes with
    | none => .error .InsufficientData
    | some (a, b, c, d, e, f, g, h, r) => .ok (.float64 (q8 a b c d e f g h), r)
  | 116 =>
    match take8 bytes with
    | none => .error .InsufficientData
    | some (a, b, c, d, e, f, g, h, r) => .ok (.timetag (q8 a b c d e f g h), r)
  | 99 =>
    match take4 bytes with
    | none => .error .InsufficientData
    | some (a, b, c, d, r) => .ok (.charArg (q4 a b c d), r)
  | 83 =>
    match readCString bytes with
    | .error e => .error e
    | .ok (s, r) => .ok (.symbol s, r)
  | 114 =>
    match take4 bytes with
    | none => .error .InsufficientData
    | some (a, b, c, d, r) => .ok (.rgba a b c d, r)
  | 109 =>
    match take4 bytes with
    | none => .error .InsufficientData
    | some (a, b, c, d, r) => .ok (.midi a b c d, r)
  | _ => .error .UnknownTypeTag

/-- Modelled from the spec: the type-tag string walk of message decode
(section 4.3) in the missing structural codec; cur is the argument list of the
innermost open context and stack holds the argument lists of the enclosing
contexts. -/
def walk (tags : List Nat) (bytes : List Nat) (cur : List OSCArg)
    (stack : List (List OSCArg)) : Except OSCError (List OSCArg × List Nat) :=
  match tags with
  | [] =>
    match stack with
    | [] => .ok (cur, bytes)
    | _ :: _ => .error .UnbalancedArray
  | t :: ts =>
    if t = 91 then walk ts bytes [] (cur :: stack)
    else if t = 93 then
      match stack with
      | [] => .error .UnbalancedArray
      | parent :: stack2 => walk ts bytes (parent ++ [.arr cur]) stack2
    else
      match decodeAtom t bytes with
      | .error e => .error e
      | .ok (a, bytes2) => walk ts bytes2 (cur ++ [a]) stack

/-- Modelled from the spec: message decode (section 4.3) of the missing
structural codec; reads the address, requires a leading slash byte, accepts a
missing type-tag string for the legacy zero-argument form, requires a comma
at the head of the tag string and walks it. -/
def decodeMessage (bytes : List Nat) : Except OSCError OSCPacket :=
  match readCString bytes with
  | .error e => .error e
  | .ok (addr, rest) =>
    if addr.head? = some 47 then
      match rest with
      | [] => .ok (.message addr [])
      | _ :: _ =>
        match readCString rest with
        | .error e => .error e
        | .ok (tags, rest2) =>
          match tags with
          | 44 :: tagChars =>
            match walk tagChars rest2 [] [] with
            | .error e => .error e
            | .ok (args, _) => .ok (.message addr args)
          | _ => .error .MalformedString
    else .error .InvalidAddress

/-- Wire marker identifying a bundle, the bytes of the literal hash-bundle-NUL
string. -/
def bundleMarker : List Nat := [35, 98, 117, 110, 100, 108, 101, 0]

mutual

/-- Modelled from the spec: packet decode dispatch (section 4.3) of the
missing structural codec; the first eight bytes select bundle decode when they
equal the bundle marker, message decode otherwise. -/
def decodePacket (bytes : List Nat) : Except OSCError OSCPacket :=
  if h : bytes.take 8 = bundleMarker then decodeBundleBody (bytes.drop 8)
  else decodeMessage bytes
termination_by bytes.length
decreasing_by
  have h8 : (List.take 8 bytes).length = bundleMarker.length := by rw [h]
  simp [bundleMarker] at h8
  simp_wf
  omega

/-- Modelled from the spec: bundle decode after the marker (section 4.3);
reads the 8-byte big-endian timetag and then the length-prefixed elements. -/
def decodeBundleBody (bytes : List Nat) : Except OSCError OSCPacket :=
  if h : bytes.length < 8 then .error .InsufficientData
  else
    match decodeElems (bytes.drop 8) with
    | .error e => .error e
    | .ok es => .ok (.bundle (beVal (bytes.take 8)) es)
termination_by bytes.length
decreasing_by
  simp_wf
  omega

/-- Modelled from the spec: the element loop of bundle decode (section 4.3);
while bytes remain, reads a 4-byte big-endian length, slices that many bytes
and decodes the slice recursively as a packet. -/
def decodeElems (bytes : List Nat) : Except OSCError (List OSCPacket) :=
  if hb : bytes = [] then .ok []
  else if h4 : bytes.length < 4 then .error .InsufficientData
  else
    let L := beVal (bytes.take 4)
    if hL : bytes.length < 4 + L then .error .InsufficientData
    else
      match decodePacket ((bytes.drop 4).take L) with
      | .error e => .error e
      | .ok p =>
        match decodeElems (bytes.drop (4 + L)) with
        | .error e => .error e
        | .ok ps => .ok (p :: ps)
termination_by bytes.length
decreasing_by
all_goals simp_wf
all_goals
  have hp : 0 < bytes.length := List.length_pos.mpr hb
all_goals omega

end

mutual

/-- Modelled from the spec: the type-tag character of an argument and, for an
array, the bracketed tag run of its items (sections 3 and 4.3). -/
def tagOfArg : OSCArg → List Nat
  | .int32 _ => [105]
  | .float32 _ => [102]
  | .str _ => [115]
  | .blob _ => [98]
  | .boolT => [84]
  | .boolF => [70]
  | .nilArg => [78]
  | .impulseArg => [73]
  | .int64 _ => [104]
  | .float64 _ => [100]
  | .timetag _ => [116]
  | .charArg _ => [99]
  | .symbol _ => [83]
  | .rgba _ _ _ _ => [114]
  | .midi _ _ _ _ => [109]
  | .arr items => 91 :: tagList items ++ [93]

/-- Tag characters of an argument list, in depth-first order. -/
def tagList : List OSCArg → List Nat
  | [] => []
  | a :: as => tagOfArg a ++ tagList as

end

mutual

/-- Modelled from the spec: the payload bytes of one argument (section 4.3
atomic payload encodings); brackets contribute no payload bytes, so an array
contributes the concatenated payloads of its items. -/
def payloadOf : OSCArg → List Nat
  | .int32 v => beBytes 4 (intTo32 v)
  | .float32 v => beBytes 4 v
  | .str s => cstr s
  | .blob b => beBytes 4 b.length ++ b ++ List.replicate (padLen b.length) 0
  | .boolT => []
  | .boolF => []
  | .nilArg => []
  | .impulseArg => []
  | .int64 v => beBytes 8 (intTo64 v)
  | .float64 v => beBytes 8 v
  | .timetag v => beBytes 8 v
  | .charArg c => beBytes 4 c
  | .symbol s => cstr s
  | .rgba rv gv bv av => [rv % 256, gv % 256, bv % 256, av % 256]
  | .midi port status data1 data2 => [port % 256, status % 256, data1 % 256, data2 % 256]
  | .arr items => payloadList items

/-- Payload bytes of an argument list, in depth-first order. -/
def payloadList : List OSCArg → List Nat
  | [] => []
  | a :: as => payloadOf a ++ payloadList as

end

/-- Modelled from the spec: message encode (section 4.3) of the missing
structural codec; padded address, padded comma-prefixed tag string, then the
argument payloads. -/
def encodeMessageBytes (addr : List Nat) (args : List OSCArg) : List Nat :=
  cstr addr ++ cstr (44 :: tagList args) ++ payloadList args

mutual

/-- Modelled from the spec: packet encode (section 4.3) of the missing
structural codec. -/
def encodePacket : OSCPacket → List Nat
  | .message a as => encodeMessageBytes a as
  | .bundle tt es => bundleMarker ++ beBytes 8 tt ++ encodeElems es

/-- Modelled from the spec: bundle element encoding, each element preceded by
its 4-byte big-endian length (section 4.3). -/
def encodeElems : List OSCPacket → List Nat
  | [] => []
  | e :: es => beBytes 4 (encodePacket e).length ++ encodePacket e ++ encodeElems es

end

/-- Byte check for wire strings: every byte fits in one octet and none is the
NUL terminator. -/
def wfStrBytes (s : List Nat) : Bool := s.all (fun b => decide (0 < b) && decide (b < 256))

/-- Address check: the address is a wire string whose first byte is the slash
character. -/
def wfAddr (a : List Nat) : Bool := decide (a.head? = some 47) && wfStrBytes a

mutual

/-- Well-formedness of an argument: every field fits the width of its wire
representation and wire strings carry no embedded NUL. -/
def wfArg : OSCArg → Bool
  | .int32 v => decide (-2147483648 ≤ v) && decide (v < 2147483648)
  | .float32 v => decide (v < 4294967296)
  | .str s => wfStrBytes s
  | .blob b => b.all (fun x => decide (x < 256)) && decide (b.length < 2147483648)
  | .boolT => true
  | .boolF => true
  | .nilArg => true
  | .impulseArg => true
  | .int64 v => decide (-9223372036854775808 ≤ v) && decide (v < 9223372036854775808)
  | .float64 v => decide (v < 18446744073709551616)
  | .timetag v => decide (v < 18446744073709551616)
  | .charArg c => decide (c < 256)
  | .symbol s => wfStrBytes s
  | .rgba rv gv bv av =>
    decide (rv < 256) && decide (gv < 256) && decide (bv < 256) && decide (av < 256)
  | .midi port status data1 data2 =>
    decide (port < 256) && decide (status < 256) && decide (data1 < 256) && decide (data2 < 256)
  | .arr items => wfArgs items

/-- Well-formedness of an argument list. -/
def wfArgs : List OSCArg → Bool
  | [] => true
  | a :: as => wfArg a && wfArgs as

end

mutual

/-- Well-formedness of a packet: a valid address and well-formed arguments for
a message, a 64-bit timetag and well-formed elements for a bundle. -/
def wfPacket : OSCPacket → Bool
  | .message a as => wfAddr a && wfArgs as
  | .bundle tt es => decide (tt < 18446744073709551616) && wfElems es

/-- Well-formedness of bundle elements; each encoded element must also fit the
signed 32-bit length header the wire format gives it. -/
def wfElems : List OSCPacket → Bool
  | [] => true
  | e :: es => wfPacket e && decide ((encodePacket e).length < 2147483648) && wfElems es

end

/-- Modelled from the spec: SLIP byte stuffing of a packet body (section 4.4)
in the missing framing layer; the END byte 192 becomes 219 220 and the ESC
byte 219 becomes 219 221. -/
def slipStuff : List Nat → List Nat
  | [] => []
  | x :: xs =>
    (if x = 192 then [219, 220] else if x = 219 then [219, 221] else [x]) ++ slipStuff xs

/-- Modelled from the spec: SLIP unescaping of a received frame (section 4.4)
in the missing framing layer. -/
def slipUnstuff : List Nat → List Nat
  | [] => []
  | x :: xs =>
    if x = 219 then
      match xs with
      | [] => [x]
      | y :: ys => (if y = 220 then 192 else if y = 221 then 219 else y) :: slipUnstuff ys
    else x :: slipUnstuff xs

/-- Modelled from the spec: the delimiter scan of the SLIP stream decoder
(section 4.4); returns the complete spans ended by an END byte, in order and
including empty spans, together with the trailing bytes after the last END
byte. -/
def splitC0 : List Nat → List (List Nat) × List Nat
  | [] => ([], [])
  | x :: xs =>
    let p := splitC0 xs
    if x = 192 then ([] :: p.1, p.2)
    else
      match p.1 with
      | [] => ([], x :: p.2)
      | f :: fs => ((x :: f) :: fs, p.2)

/-- Modelled from the spec: frame extraction of the length-prefixed stream
decoder (section 4.4); repeatedly reads a 4-byte big-endian length and slices
that many payload bytes, stopping as soon as a header or payload is
incomplete and leaving those bytes buffered. -/
def extractLP (bytes : List Nat) : List (List Nat) × List Nat :=
  if h4 : bytes.length < 4 then ([], bytes)
  else
    let L := beVal (bytes.take 4)
    if hL : bytes.length < 4 + L then ([], bytes)
    else
      let p := extractLP (bytes.drop (4 + L))
      ((bytes.drop 4).take L :: p.1, p.2)
termination_by bytes.length
decreasing_by
  simp_wf
  omega

/-- Modelled from the spec: the transport modes of the missing oscparser
encode and decode modules; UDP is the datagram mode and TCP the stream mode. -/
inductive OSCModes where
  | UDP
  | TCP
  deriving DecidableEq, Repr

/-- Modelled from the spec: the framing styles of the missing oscparser
encode and decode modules; OSC10 is length-prefixed and OSC11 is SLIP. -/
inductive OSCFraming where
  | OSC10
  | OSC11
  deriving DecidableEq, Repr

/-- Modelled from the spec: OSCEncoder.encode of the missing oscparser.encode
module (section 4.4); datagram mode emits the raw packet bytes for either
framing style, stream mode adds the 4-byte big-endian length header under
OSC10 framing and SLIP delimiting with byte stuffing under OSC11 framing. -/
def OSCEncoder.encode (m : OSCModes) (f : OSCFraming) (p : OSCPacket) : List Nat :=
  match m, f with
  | .UDP, _ => encodePacket p
  | .TCP, .OSC10 => beBytes 4 (encodePacket p).length ++ encodePacket p
  | .TCP, .OSC11 => 192 :: (slipStuff (encodePacket p) ++ [192])

/-- Modelled from the spec: decoding of one reassembled frame (section 4.4);
an OSC11 frame is unescaped before structural decoding. -/
def decodeFrameBytes (f : OSCFraming) (frame : List Nat) : Except OSCError OSCPacket :=
  match f with
  | .OSC10 => decodePacket frame
  | .OSC11 => decodePacket (slipUnstuff frame)

/-- Modelled from the spec: frame extraction from the stream accumulator for
one framing style (section 4.4); under SLIP the empty spans between adjacent
END delimiters complete no frame and are skipped, which is what the test
suite observes when it expects exactly one packet per SLIP transmission. -/
def extract (f : OSCFraming) (buf : List Nat) : List (List Nat) × List Nat :=
  match f with
  | .OSC10 => extractLP buf
  | .OSC11 =>
    let p := splitC0 buf
    (p.1.filter (fun fr => !fr.isEmpty), p.2)

/-- Modelled from the spec: one call of OSCDecoder.decode of the missing
oscparser.decode module (sections 4.4 and 6); st is the internal accumulator
before the call, the result pairs the decoded packets extracted from
everything accumulated so far with the accumulator left for the next call.
Datagram mode decodes the chunk directly with no cross-call state. -/
def OSCDecoder.decode (m : OSCModes) (f : OSCFraming) (st : List Nat) (chunk : List Nat) :
    List (Except OSCError OSCPacket) × List Nat :=
  match m with
  | .UDP => ([decodePacket chunk], [])
  | .TCP =>
    let p := extract f (st ++ chunk)
    (p.1.map (decodeFrameBytes f), p.2)

/-- Repeated calls of the stateful stream decoder, one chunk per call,
concatenating the packets produced by each call. -/
def feedAll (m : OSCModes) (f : OSCFraming) (st : List Nat) :
    List (List Nat) → List (Except OSCError OSCPacket) × List Nat
  | [] => ([], st)
  | c :: cs =>
    let r := OSCDecoder.decode m f st c
    let r2 := feedAll m f r.2 cs
    (r.1 ++ r2.1, r2.2)

/-- Bracket balance check for a tag-string suffix against a current nesting
depth: every close bracket finds an open context and the walk ends at depth
zero. -/
def brDepthOk : List Nat → Nat → Bool
  | [], d => decide (d = 0)
  | t :: ts, d =>
    if t = 91 then brDepthOk ts (d + 1)
    else if t = 93 then decide (d ≠ 0) && brDepthOk ts (d - 1)
    else brDepthOk ts d

/-- Python value type from oscparser/types.py: 32-bit signed integer argument;
pydantic constrains the field to int, which is unbounded in Python. -/
structure OSCInt where
  value : Int

/-- Wire tag of OSCInt, the ClassVar TAG of the source class. -/
def OSCInt.TAG : String := "i"

/-- Python value type from oscparser/types.py: 32-bit float argument; the
field is a Python float, a 64-bit IEEE value. -/
structure OSCFloat where
  value : Float

/-- Wire tag of OSCFloat. -/
def OSCFloat.TAG : String := "f"

/-- Python value type from oscparser/types.py: string argument. -/
structure OSCString where
  value : String

/-- Wire tag of OSCString. -/
def OSCString.TAG : String := "s"

/-- Python value type from oscparser/types.py: blob argument; Python bytes are
modelled as a list of octet values. -/
structure OSCBlob where
  value : List Nat

/-- Wire tag of OSCBlob. -/
def OSCBlob.TAG : String := "b"

/-- Python value type from oscparser/types.py: boolean true argument, no
payload field. -/
structure OSCTrue where

/-- Wire tag of OSCTrue. -/
def OSCTrue.TAG : String := "T"

/-- Python value type from oscparser/types.py: boolean false argument, no
payload field. -/
structure OSCFalse where

/-- Wire tag of OSCFalse. -/
def OSCFalse.TAG : String := "F"

/-- Python value type from oscparser/types.py: nil argument, no payload
field. -/
structure OSCNil where

/-- Wire tag of OSCNil. -/
def OSCNil.TAG : String := "N"

/-- Python value type from oscparser/types.py: 64-bit signed integer
argument. -/
structure OSCInt64 where
  value : Int

/-- Wire tag of OSCInt64. -/
def OSCInt64.TAG : String := "h"

/-- Python value type from oscparser/types.py: 64-bit float argument. -/
structure OSCDouble where
  value : Float

/-- Wire tag of OSCDouble. -/
def OSCDouble.TAG : String := "d"

/-- Stand-in for the Python datetime object carried by OSCTimeTag; only its
identity as an immutable value matters to the claims, so it is modelled as an
opaque-free wrapper of an integer tick count. -/
structure PyDatetime where
  ticks : Int

/-- Python value type from oscparser/types.py: timetag argument represented as
a datetime. -/
structure OSCTimeTag where
  value : PyDatetime

/-- Wire tag of OSCTimeTag. -/
def OSCTimeTag.TAG : String := "t"

/-- Python value type from oscparser/types.py: character argument; the source
annotates the field as str with a comment saying usually length 1, and no
validator restricts its length. -/
structure OSCChar where
  value : String

/-- Wire tag of OSCChar. -/
def OSCChar.TAG : String := "c"

/-- Python value type from oscparser/types.py: symbol argument. -/
structure OSCSymbol where
  value : String

/-- Wire tag of OSCSymbol. -/
def OSCSymbol.TAG : String := "S"

/-- Python value type from oscparser/types.py: RGBA color argument with four
integer fields. -/
structure OSCRGBA where
  r : Int
  g : Int
  b : Int
  a : Int

/-- Wire tag of OSCRGBA. -/
def OSCRGBA.TAG : String := "r"

/-- Python value type from oscparser/types.py: MIDI message argument with four
integer fields. -/
structure OSCMidi where
  port_id : Int
  status : Int
  data1 : Int
  data2 : Int

/-- Wire tag of OSCMidi. -/
def OSCMidi.TAG : String := "m"

/-- Python value type from oscparser/types.py: impulse argument, no payload
field. -/
structure OSCImpulse where

/-- Wire tag of OSCImpulse. -/
def OSCImpulse.TAG : String := "I"

/-- Module-level shared instance OSC_IMPULSE of oscparser/types.py. -/
def OSC_IMPULSE : OSCImpulse := ⟨⟩

/-- Union of the Python argument types of oscparser/types.py, with the
recursive OSCArray variant carrying its tuple of items. -/
inductive PyOSCArg where
  | aInt (v : OSCInt)
  | aFloat (v : OSCFloat)
  | aString (v : OSCString)
  | aBlob (v : OSCBlob)
  | aTrue (v : OSCTrue)
  | aFalse (v : OSCFalse)
  | aNil (v : OSCNil)
  | aImpulse (v : OSCImpulse)
  | aInt64 (v : OSCInt64)
  | aDouble (v : OSCDouble)
  | aTimeTag (v : OSCTimeTag)
  | aChar (v : OSCChar)
  | aSymbol (v : OSCSymbol)
  | aRGBA (v : OSCRGBA)
  | aMidi (v : OSCMidi)
  | aArray (items : List PyOSCArg)

/-- Python composite type OSCMessage of oscparser/types.py: an address string
plus a tuple of arguments; the source declares no validator on either field
beyond the pydantic type checks. -/
structure OSCMessage where
  address : String
  args : List PyOSCArg

/-- Union OSCPacket of oscparser/types.py; the bundle variant carries its
integer timetag and its tuple of elements. -/
inductive PyOSCPacket where
  | ofMessage (m : OSCMessage)
  | ofBundle (timetag : Int) (elements : List PyOSCPacket)

/-- Frozen flag of the shared pydantic Config of the base class _FrozenModel
in oscparser/types.py. -/
def frozenModelFrozen : Bool := true

/-- Outcome of an attribute assignment on a pydantic model instance. -/
inductive SetattrOutcome (α : Type) where
  | set (newVal : α)
  | frozenError

/-- Attribute assignment as pydantic performs it for classes deriving from
_FrozenModel: when the shared Config marks the model frozen, the assignment
raises instead of producing an updated value. -/
def frozenSetattr {α : Type} (x : α) (upd : α → α) : SetattrOutcome α :=
  if frozenModelFrozen = true then .frozenError else .set (upd x)

/-- Construction of an OSCMessage as pydantic performs it: the source declares
the address as a plain str field with no value validator, so construction
succeeds for every address string. -/
def mkOSCMessage (address : String) (args : List PyOSCArg) : Option OSCMessage :=
  some ⟨address, args⟩

/-- Construction of an OSCChar as pydantic performs it: the value field is a
plain str with no length validator, so construction succeeds for every
string. -/
def mkOSCChar (s : String) : Option OSCChar :=
  some ⟨s⟩

theorem beBytes_length (k n : Nat) : (beBytes k n).length = k := by
  induction k generalizing n with
  | zero => simp [beBytes]
  | succ k ih => simp [beBytes, ih]

theorem beVal_snoc (xs : List Nat) (y : Nat) : beVal (xs ++ [y]) = beVal xs * 256 + y := by
  simp [beVal, List.foldl_append]

theorem beVal_beBytes (k n : Nat) : beVal (beBytes k n) = n % 256 ^ k := by
  induction k generalizing n with
  | zero => simp [beBytes, beVal, Nat.mod_one]
  | succ k ih =>
    rw [beBytes, beVal_snoc, ih, pow_succ, mul_comm (256 ^ k) 256, Nat.mod_mul]
    ring

theorem beVal4 (a b c d : Nat) : beVal [a, b, c, d] = q4 a b c d := by
  simp [beVal, q4]

theorem take4_beBytes (n : Nat) (r : List Nat) :
    take4 (beBytes 4 n ++ r) =
      some (n / 256 / 256 / 256 % 256, n / 256 / 256 % 256, n / 256 % 256, n % 256, r) := rfl

theorem take8_beBytes (n : Nat) (r : List Nat) :
    take8 (beBytes 8 n ++ r) =
      some (n / 256 / 256 / 256 / 256 / 256 / 256 / 256 % 256,
        n / 256 / 256 / 256 / 256 / 256 / 256 % 256,
        n / 256 / 256 / 256 / 256 / 256 % 256,
        n / 256 / 256 / 256 / 256 % 256,
        n / 256 / 256 / 256 % 256, n / 256 / 256 % 256, n / 256 % 256, n % 256, r) := rfl

theorem q4_beBytes (n : Nat) (hn : n < 4294967296) :
    q4 (n / 256 / 256 / 256 % 256) (n / 256 / 256 % 256) (n / 256 % 256) (n % 256) = n := by
  unfold q4
  omega

theorem q8_beBytes (n : Nat) (hn : n < 18446744073709551616) :
    q8 (n / 256 / 256 / 256 / 256 / 256 / 256 / 256 % 256)
      (n / 256 / 256 / 256 / 256 / 256 / 256 % 256)
      (n / 256 / 256 / 256 / 256 / 256 % 256)
      (n / 256 / 256 / 256 / 256 % 256)
      (n / 256 / 256 / 256 % 256) (n / 256 / 256 % 256) (n / 256 % 256) (n % 256) = n := by
  unfold q8
  omega

theorem i32_intTo32 (v : Int) (h1 : -2147483648 ≤ v) (h2 : v < 2147483648) :
    i32val (intTo32 v) = v := by
  simp only [i32val, intTo32]
  split <;> omega

theorem i64_intTo64 (v : Int) (h1 : -9223372036854775808 ≤ v)
    (h2 : v < 9223372036854775808) : i64val (intTo64 v) = v := by
  simp only [i64val, intTo64]
  split <;> omega

theorem intTo32_lt (v : Int) : intTo32 v < 4294967296 := by
  simp only [intTo32]
  omega

theorem intTo64_lt (v : Int) : intTo64 v < 18446744073709551616 := by
  simp only [intTo64]
  omega

theorem takeWhile_append_all (p : Nat → Bool) (s t : List Nat) (h : ∀ b ∈ s, p b = true) :
    (s ++ t).takeWhile p = s ++ t.takeWhile p := by
  induction s with
  | nil => simp
  | cons x xs ih =>
    have hx : p x = true := h x (by simp)
    simp [List.takeWhile, hx]
    exact ih (fun b hb => h b (by simp [hb]))

theorem dropWhile_append_all (p : Nat → Bool) (s t : List Nat) (h : ∀ b ∈ s, p b = true) :
    (s ++ t).dropWhile p = t.dropWhile p := by
  induction s with
  | nil => simp
  | cons x xs ih =>
    have hx : p x = true := h x (by simp)
    simp [List.dropWhile, hx]
    exact ih (fun b hb => h b (by simp [hb]))

theorem readCString_cstr (s rest : List Nat) (h : ∀ b ∈ s, b ≠ 0) :
    readCString (cstr s ++ rest) = .ok (s, rest) := by
  have hshape : cstr s ++ rest = s ++ (0 :: (List.replicate (padLen (s.length + 1)) 0 ++ rest)) := by
    simp [cstr]
  have hp : ∀ b ∈ s, (fun b => decide (b ≠ 0)) b = true := by
    intro b hb
    simpa using h b hb
  rw [readCString, hshape, dropWhile_append_all _ _ _ hp, takeWhile_append_all _ _ _ hp]
  simp [List.dropWhile, List.takeWhile, List.drop_left']

theorem wfStrBytes_nonzero (s : List Nat) (h : wfStrBytes s = true) : ∀ b ∈ s, b ≠ 0 := by
  intro b hb
  have := List.all_eq_true.mp h b hb
  simp at this
  omega

theorem decodeAtom_int32 (v : Int) (rest : List Nat) (h1 : -2147483648 ≤ v)
    (h2 : v < 2147483648) :
    decodeAtom 105 (beBytes 4 (intTo32 v) ++ rest) = .ok (.int32 v, rest) := by
  simp [decodeAtom, take4_beBytes, q4_beBytes (intTo32 v) (intTo32_lt v), i32_intTo32 v h1 h2]

theorem decodeAtom_float32 (v : Nat) (rest : List Nat) (h : v < 4294967296) :
    decodeAtom 102 (beBytes 4 v ++ rest) = .ok (.float32 v, rest) := by
  simp [decodeAtom, take4_beBytes, q4_beBytes v h]

theorem decodeAtom_str (s rest : List Nat) (hs : wfStrBytes s = true) :
    decodeAtom 115 (cstr s ++ rest) = .ok (.str s, rest) := by
  simp [decodeAtom, readCString_cstr s rest (wfStrBytes_nonzero s hs)]

theorem decodeAtom_symbol (s rest : List Nat) (hs : wfStrBytes s = true) :
    decodeAtom 83 (cstr s ++ rest) = .ok (.symbol s, rest) := by
  simp [decodeAtom, readCString_cstr s rest (wfStrBytes_nonzero s hs)]

theorem decodeAtom_blob (b rest : List Nat) (hb : b.length < 2147483648) :
    decodeAtom 98 (beBytes 4 b.length ++ (b ++ (List.replicate (padLen b.length) 0 ++ rest))) =
      .ok (.blob b, rest) := by
  have hq : q4 (b.length / 256 / 256 / 256 % 256) (b.length / 256 / 256 % 256)
      (b.length / 256 % 256) (b.length % 256) = b.length := q4_beBytes b.length (by omega)
  simp only [decodeAtom, take4_beBytes, hq]
  have hlen : ¬ ((b ++ (List.replicate (padLen b.length) 0 ++ rest)).length < b.length) := by
    simp
  rw [if_neg hlen]
  rw [List.take_left' rfl, List.drop_left' rfl,
    List.drop_left' (List.length_replicate (padLen b.length) 0)]

theorem decodeAtom_int64 (v : Int) (rest : List Nat) (h1 : -9223372036854775808 ≤ v)
    (h2 : v < 9223372036854775808) :
    decodeAtom 104 (beBytes 8 (intTo64 v) ++ rest) = .ok (.int64 v, rest) := by
  simp [decodeAtom, take8_beBytes, q8_beBytes (intTo64 v) (intTo64_lt v), i64_intTo64 v h1 h2]

theorem decodeAtom_float64 (v : Nat) (rest : List Nat) (h : v < 18446744073709551616) :
    decodeAtom 100 (beBytes 8 v ++ rest) = .ok (.float64 v, rest) := by
  simp [decodeAtom, take8_beBytes, q8_beBytes v h]

theorem decodeAtom_timetag (v : Nat) (rest : List Nat) (h : v < 18446744073709551616) :
    decodeAtom 116 (beBytes 8 v ++ rest) = .ok (.timetag v, rest) := by
  simp [decodeAtom, take8_beBytes, q8_beBytes v h]

theorem decodeAtom_char (c : Nat) (rest : List Nat) (h : c < 256) :
    decodeAtom 99 (beBytes 4 c ++ rest) = .ok (.charArg c, rest) := by
  simp [decodeAtom, take4_beBytes, q4_beBytes c (by omega)]

theorem decodeAtom_rgba (rv gv bv av : Nat) (rest : List Nat) (h1 : rv < 256) (h2 : gv < 256)
    (h3 : bv < 256) (h4 : av < 256) :
    decodeAtom 114 (rv % 256 :: gv % 256 :: bv % 256 :: av % 256 :: rest) = .ok (.rgba rv gv bv av, rest) := by
  simp [decodeAtom, take4, Nat.mod_eq_of_lt h1, Nat.mod_eq_of_lt h2, Nat.mod_eq_of_lt h3,
    Nat.mod_eq_of_lt h4]

theorem decodeAtom_midi (pv sv d1 d2 : Nat) (rest : List Nat) (h1 : pv < 256) (h2 : sv < 256)
    (h3 : d1 < 256) (h4 : d2 < 256) :
    decodeAtom 109 (pv % 256 :: sv % 256 :: d1 % 256 :: d2 % 256 :: rest) = .ok (.midi pv sv d1 d2, rest) := by
  simp [decodeAtom, take4, Nat.mod_eq_of_lt h1, Nat.mod_eq_of_lt h2, Nat.mod_eq_of_lt h3,
    Nat.mod_eq_of_lt h4]

theorem walk_atom_step (t : Nat) (ht1 : t ≠ 91) (ht2 : t ≠ 93) (ts bytes : List Nat)
    (cur : List OSCArg) (stack : List (List OSCArg)) (a : OSCArg) (bytes2 : List Nat)
    (hd : decodeAtom t bytes = .ok (a, bytes2)) :
    walk (t :: ts) bytes cur stack = walk ts bytes2 (cur ++ [a]) stack := by
  rw [walk.eq_def]
  simp [ht1, ht2, hd]

theorem walk_open (ts bytes : List Nat) (cur : List OSCArg) (stack : List (List OSCArg)) :
    walk (91 :: ts) bytes cur stack = walk ts bytes [] (cur :: stack) := by
  rw [walk.eq_def]
  simp

theorem walk_close (ts bytes : List Nat) (cur parent : List OSCArg)
    (stack : List (List OSCArg)) :
    walk (93 :: ts) bytes cur (parent :: stack) = walk ts bytes (parent ++ [.arr cur]) stack := by
  rw [walk.eq_def]
  simp



theorem walk_args : ∀ (args : List OSCArg) (mt mb : List Nat) (cur : List OSCArg)
    (stack : List (List OSCArg)), wfArgs args = true →
    walk (tagList args ++ mt) (payloadList args ++ mb) cur stack = walk mt mb (cur ++ args) stack
  | [], mt, mb, cur, stack, _ => by
    simp [tagList, payloadList]
  | .int32 v :: as, mt, mb, cur, stack, hw => by
    simp only [wfArgs, wfArg, Bool.and_eq_true, decide_eq_true_eq] at hw
    simp only [tagList, tagOfArg, payloadList, payloadOf, List.cons_append, List.nil_append,
      List.append_assoc]
    rw [walk_atom_step 105 (by decide) (by decide) _ _ _ _ _ _ (decodeAtom_int32 v _ hw.1.1 hw.1.2)]
    rw [walk_args as mt mb _ stack hw.2]
    simp
  | .float32 v :: as, mt, mb, cur, stack, hw => by
    simp only [wfArgs, wfArg, Bool.and_eq_true, decide_eq_true_eq] at hw
    simp only [tagList, tagOfArg, payloadList, payloadOf, List.cons_append, List.nil_append,
      List.append_assoc]
    rw [walk_atom_step 102 (by decide) (by decide) _ _ _ _ _ _ (decodeAtom_float32 v _ hw.1)]
    rw [walk_args as mt mb _ stack hw.2]
    simp
  | .str s :: as, mt, mb, cur, stack, hw => by
    simp only [wfArgs, wfArg, Bool.and_eq_true] at hw
    simp only [tagList, tagOfArg, payloadList, payloadOf, List.cons_append, List.nil_append,
      List.append_assoc]
    rw [walk_atom_step 115 (by decide) (by decide) _ _ _ _ _ _ (decodeAtom_str s _ hw.1)]
    rw [walk_args as mt mb _ stack hw.2]
    simp
  | .blob b :: as, mt, mb, cur, stack, hw => by
    simp only [wfArgs, wfArg, Bool.and_eq_true, decide_eq_true_eq] at hw
    simp only [tagList, tagOfArg, payloadList, payloadOf, List.cons_append, List.nil_append,
      List.append_assoc]
    rw [walk_atom_step 98 (by decide) (by decide) _ _ _ _ _ _ (decodeAtom_blob b _ hw.1.2)]
    rw [walk_args as mt mb _ stack hw.2]
    simp
  | .boolT :: as, mt, mb, cur, stack, hw => by
    simp only [wfArgs, wfArg, Bool.and_eq_true] at hw
    simp only [tagList, tagOfArg, payloadList, payloadOf, List.cons_append, List.nil_append,
      List.append_assoc]
    rw [walk_atom_step 84 (by decide) (by decide) _ _ _ _ _ _ rfl]
    rw [walk_args as mt mb _ stack hw.2]
    simp
  | .boolF :: as, mt, mb, cur, stack, hw => by
    simp only [wfArgs, wfArg, Bool.and_eq_true] at hw
    simp only [tagList, tagOfArg, payloadList, payloadOf, List.cons_append, List.nil_append,
      List.append_assoc]
    rw [walk_atom_step 70 (by decide) (by decide) _ _ _ _ _ _ rfl]
    rw [walk_args as mt mb _ stack hw.2]
    simp
  | .nilArg :: as, mt, mb, cur, stack, hw => by
    simp only [wfArgs, wfArg, Bool.and_eq_true] at hw
    simp only [tagList, tagOfArg, payloadList, payloadOf, List.cons_append, List.nil_append,
      List.append_assoc]
    rw [walk_atom_step 78 (by decide) (by decide) _ _ _ _ _ _ rfl]
    rw [walk_args as mt mb _ stack hw.2]
    simp
  | .impulseArg :: as, mt, mb, cur, stack, hw => by
    simp only [wfArgs, wfArg, Bool.and_eq_true] at hw
    simp only [tagList, tagOfArg, payloadList, payloadOf, List.cons_append, List.nil_append,
      List.append_assoc]
    rw [walk_atom_step 73 (by decide) (by decide) _ _ _ _ _ _ rfl]
    rw [walk_args as mt mb _ stack hw.2]
    simp
  | .int64 v :: as, mt, mb, cur, stack, hw => by
    simp only [wfArgs, wfArg, Bool.and_eq_true, decide_eq_true_eq] at hw
    simp only [tagList, tagOfArg, payloadList, payloadOf, List.cons_append, List.nil_append,
      List.append_assoc]
    rw [walk_atom_step 104 (by decide) (by decide) _ _ _ _ _ _ (decodeAtom_int64 v _ hw.1.1 hw.1.2)]
    rw [walk_args as mt mb _ stack hw.2]
    simp
  | .float64 v :: as, mt, mb, cur, stack, hw => by
    simp only [wfArgs, wfArg, Bool.and_eq_true, decide_eq_true_eq] at hw
    simp only [tagList, tagOfArg, payloadList, payloadOf, List.cons_append, List.nil_append,
      List.append_assoc]
    rw [walk_atom_step 100 (by decide) (by decide) _ _ _ _ _ _ (decodeAtom_float64 v _ hw.1)]
    rw [walk_args as mt mb _ stack hw.2]
    simp
  | .timetag v :: as, mt, mb, cur, stack, hw => by
    simp only [wfArgs, wfArg, Bool.and_eq_true, decide_eq_true_eq] at hw
    simp only [tagList, tagOfArg, payloadList, payloadOf, List.cons_append, List.nil_append,
      List.append_assoc]
    rw [walk_atom_step 116 (by decide) (by decide) _ _ _ _ _ _ (decodeAtom_timetag v _ hw.1)]
    rw [walk_args as mt mb _ stack hw.2]
    simp
  | .charArg c :: as, mt, mb, cur, stack, hw => by
    simp only [wfArgs, wfArg, Bool.and_eq_true, decide_eq_true_eq] at hw
    simp only [tagList, tagOfArg, payloadList, payloadOf, List.cons_append, List.nil_append,
      List.append_assoc]
    rw [walk_atom_step 99 (by decide) (by decide) _ _ _ _ _ _ (decodeAtom_char c _ hw.1)]
    rw [walk_args as mt mb _ stack hw.2]
    simp
  | .symbol s :: as, mt, mb, cur, stack, hw => by
    simp only [wfArgs, wfArg, Bool.and_eq_true] at hw
    simp only [tagList, tagOfArg, payloadList, payloadOf, List.cons_append, List.nil_append,
      List.append_assoc]
    rw [walk_atom_step 83 (by decide) (by decide) _ _ _ _ _ _ (decodeAtom_symbol s _ hw.1)]
    rw [walk_args as mt mb _ stack hw.2]
    simp
  | .rgba rv gv bv av :: as, mt, mb, cur, stack, hw => by
    simp only [wfArgs, wfArg, Bool.and_eq_true, decide_eq_true_eq] at hw
    simp only [tagList, tagOfArg, payloadList, payloadOf, List.cons_append, List.nil_append,
      List.append_assoc]
    rw [walk_atom_step 114 (by decide) (by decide) _ _ _ _ _ _ (decodeAtom_rgba rv gv bv av _ hw.1.1.1.1 hw.1.1.1.2 hw.1.1.2 hw.1.2)]
    rw [walk_args as mt mb _ stack hw.2]
    simp
  | .midi pv sv d1 d2 :: as, mt, mb, cur, stack, hw => by
    simp only [wfArgs, wfArg, Bool.and_eq_true, decide_eq_true_eq] at hw
    simp only [tagList, tagOfArg, payloadList, payloadOf, List.cons_append, List.nil_append,
      List.append_assoc]
    rw [walk_atom_step 109 (by decide) (by decide) _ _ _ _ _ _ (decodeAtom_midi pv sv d1 d2 _ hw.1.1.1.1 hw.1.1.1.2 hw.1.1.2 hw.1.2)]
    rw [walk_args as mt mb _ stack hw.2]
    simp
  | .arr items :: as, mt, mb, cur, stack, hw => by
    simp only [wfArgs, wfArg, Bool.and_eq_true] at hw
    simp only [tagList, tagOfArg, payloadList, payloadOf, List.cons_append, List.nil_append,
      List.append_assoc]
    rw [walk_open]
    rw [walk_args items (93 :: (tagList as ++ mt)) (payloadList as ++ mb) [] (cur :: stack)
      hw.1]
    simp only [List.nil_append]
    rw [walk_close]
    rw [walk_args as mt mb _ stack hw.2]
    simp
termination_by args _ _ _ _ _ => sizeOf args
decreasing_by
all_goals simp_wf
all_goals omega

theorem tagList_ne_zero : ∀ (args : List OSCArg) (x : Nat), x ∈ tagList args → x ≠ 0
  | [], x, hx => by simp [tagList] at hx
  | .int32 v :: as, x, hx => by
    simp only [tagList, tagOfArg, List.cons_append, List.nil_append, List.mem_cons] at hx
    rcases hx with h | h
    · omega
    · exact tagList_ne_zero as x h
  | .float32 v :: as, x, hx => by
    simp only [tagList, tagOfArg, List.cons_append, List.nil_append, List.mem_cons] at hx
    rcases hx with h | h
    · omega
    · exact tagList_ne_zero as x h
  | .str s :: as, x, hx => by
    simp only [tagList, tagOfArg, List.cons_append, List.nil_append, List.mem_cons] at hx
    rcases hx with h | h
    · omega
    · exact tagList_ne_zero as x h
  | .blob bl :: as, x, hx => by
    simp only [tagList, tagOfArg, List.cons_append, List.nil_append, List.mem_cons] at hx
    rcases hx with h | h
    · omega
    · exact tagList_ne_zero as x h
  | .boolT :: as, x, hx => by
    simp only [tagList, tagOfArg, List.cons_append, List.nil_append, List.mem_cons] at hx
    rcases hx with h | h
    · omega
    · exact tagList_ne_zero as x h
  | .boolF :: as, x, hx => by
    simp only [tagList, tagOfArg, List.cons_append, List.nil_append, List.mem_cons] at hx
    rcases hx with h | h
    · omega
    · exact tagList_ne_zero as x h
  | .nilArg :: as, x, hx => by
    simp only [tagList, tagOfArg, List.cons_append, List.nil_append, List.mem_cons] at hx
    rcases hx with h | h
    · omega
    · exact tagList_ne_zero as x h
  | .impulseArg :: as, x, hx => by
    simp only [tagList, tagOfArg, List.cons_append, List.nil_append, List.mem_cons] at hx
    rcases hx with h | h
    · omega
    · exact tagList_ne_zero as x h
  | .int64 v :: as, x, hx => by
    simp only [tagList, tagOfArg, List.cons_append, List.nil_append, List.mem_cons] at hx
    rcases hx with h | h
    · omega
    · exact tagList_ne_zero as x h
  | .float64 v :: as, x, hx => by
    simp only [tagList, tagOfArg, List.cons_append, List.nil_append, List.mem_cons] at hx
    rcases hx with h | h
    · omega
    · exact tagList_ne_zero as x h
  | .timetag v :: as, x, hx => by
    simp only [tagList, tagOfArg, List.cons_append, List.nil_append, List.mem_cons] at hx
    rcases hx with h | h
    · omega
    · exact tagList_ne_zero as x h
  | .charArg c :: as, x, hx => by
    simp only [tagList, tagOfArg, List.cons_append, List.nil_append, List.mem_cons] at hx
    rcases hx with h | h
    · omega
    · exact tagList_ne_zero as x h
  | .symbol s :: as, x, hx => by
    simp only [tagList, tagOfArg, List.cons_append, List.nil_append, List.mem_cons] at hx
    rcases hx with h | h
    · omega
    · exact tagList_ne_zero as x h
  | .rgba rv gv bv av :: as, x, hx => by
    simp only [tagList, tagOfArg, List.cons_append, List.nil_append, List.mem_cons] at hx
    rcases hx with h | h
    · omega
    · exact tagList_ne_zero as x h
  | .midi pv sv d1 d2 :: as, x, hx => by
    simp only [tagList, tagOfArg, List.cons_append, List.nil_append, List.mem_cons] at hx
    rcases hx with h | h
    · omega
    · exact tagList_ne_zero as x h
  | .arr items :: as, x, hx => by
    simp only [tagList, tagOfArg, List.cons_append, List.nil_append, List.append_assoc,
      List.mem_cons, List.mem_append] at hx
    rcases hx with h | h | h | h
    · omega
    · exact tagList_ne_zero items x h
    · omega
    · exact tagList_ne_zero as x h
termination_by args _ _ => sizeOf args
decreasing_by
all_goals simp_wf
all_goals omega

theorem walk_full (args : List OSCArg) (hw : wfArgs args = true) :
    walk (tagList args) (payloadList args) [] [] = .ok (args, []) := by
  have h2 := walk_args args [] [] [] [] hw
  rw [List.append_nil, List.append_nil] at h2
  rw [h2, walk.eq_def]
  simp

theorem decodeMessage_encode (addr : List Nat) (args : List OSCArg)
    (ha : wfAddr addr = true) (hw : wfArgs args = true) :
    decodeMessage (encodeMessageBytes addr args) = .ok (.message addr args) := by
  have ha' := ha
  simp only [wfAddr, Bool.and_eq_true, decide_eq_true_eq] at ha'
  have hzero : ∀ x ∈ addr, x ≠ 0 := wfStrBytes_nonzero addr ha'.2
  have htag : ∀ x ∈ 44 :: tagList args, x ≠ 0 := by
    intro x hx
    rcases List.mem_cons.mp hx with h | h
    · omega
    · exact tagList_ne_zero args x h
  rw [decodeMessage.eq_def, encodeMessageBytes, List.append_assoc,
    readCString_cstr addr _ hzero]
  simp only [ha'.1, if_pos]
  split
  next heq =>
    exfalso
    have hlen := congrArg List.length heq
    simp [cstr] at hlen
  next x xs heq =>
    rw [readCString_cstr _ _ htag]
    simp [walk_full args hw]

theorem encodeMessage_head (addr : List Nat) (args : List OSCArg)
    (ha : addr.head? = some 47) :
    (encodeMessageBytes addr args).take 8 ≠ bundleMarker := by
  cases addr with
  | nil => simp at ha
  | cons a t =>
    simp only [List.head?] at ha
    have ha' : a = 47 := by
      injection ha
    subst ha'
    simp [encodeMessageBytes, cstr, bundleMarker, List.cons_append]

mutual

theorem decodePacket_encode : ∀ (p : OSCPacket), wfPacket p = true →
    decodePacket (encodePacket p) = .ok p
  | .message addr args, hw => by
    simp only [wfPacket, Bool.and_eq_true] at hw
    have ha : addr.head? = some 47 := by
      have := hw.1
      simp only [wfAddr, Bool.and_eq_true, decide_eq_true_eq] at this
      exact this.1
    rw [encodePacket, decodePacket.eq_def, dif_neg (encodeMessage_head addr args ha)]
    exact decodeMessage_encode addr args hw.1 hw.2
  | .bundle tt es, hw => by
    simp only [wfPacket, Bool.and_eq_true, decide_eq_true_eq] at hw
    rw [encodePacket, List.append_assoc]
    have htake : (bundleMarker ++ (beBytes 8 tt ++ encodeElems es)).take 8 = bundleMarker :=
      List.take_left' rfl
    have hdrop : (bundleMarker ++ (beBytes 8 tt ++ encodeElems es)).drop 8 =
        beBytes 8 tt ++ encodeElems es :=
      List.drop_left' rfl
    rw [decodePacket.eq_def, dif_pos htake, hdrop, decodeBundleBody.eq_def]
    have hlen : ¬ ((beBytes 8 tt ++ encodeElems es).length < 8) := by
      simp [beBytes_length]
    rw [dif_neg hlen]
    rw [List.drop_left' (beBytes_length 8 tt), decodeElems_encode es hw.2]
    rw [List.take_left' (beBytes_length 8 tt), beVal_beBytes, Nat.mod_eq_of_lt]
    have h64 : (256 : Nat) ^ 8 = 18446744073709551616 := by norm_num
    rw [h64]
    exact hw.1
termination_by p _ => sizeOf p

theorem decodeElems_encode : ∀ (es : List OSCPacket), wfElems es = true →
    decodeElems (encodeElems es) = .ok es
  | [], _ => by
    rw [encodeElems, decodeElems.eq_def]
    simp
  | e :: es, hw => by
    simp only [wfElems, Bool.and_eq_true, decide_eq_true_eq] at hw
    obtain ⟨⟨hp, hlen⟩, hes⟩ := hw
    rw [encodeElems, List.append_assoc]
    have hble : (beBytes 4 (encodePacket e).length ++
        (encodePacket e ++ encodeElems es)).length =
        4 + (encodePacket e).length + (encodeElems es).length := by
      simp [beBytes_length]
      omega
    rw [decodeElems.eq_def]
    rw [dif_neg (by
      intro hnil
      rw [hnil] at hble
      simp only [List.length_nil] at hble
      omega)]
    rw [dif_neg (by omega)]
    have htk : (beBytes 4 (encodePacket e).length ++
        (encodePacket e ++ encodeElems es)).take 4 = beBytes 4 (encodePacket e).length :=
      List.take_left' (beBytes_length 4 _)
    have hdr : (beBytes 4 (encodePacket e).length ++
        (encodePacket e ++ encodeElems es)).drop 4 = encodePacket e ++ encodeElems es :=
      List.drop_left' (beBytes_length 4 _)
    have hval : beVal ((beBytes 4 (encodePacket e).length ++
        (encodePacket e ++ encodeElems es)).take 4) = (encodePacket e).length := by
      rw [htk, beVal_beBytes]
      have h32 : (256 : Nat) ^ 4 = 4294967296 := by norm_num
      rw [h32]
      exact Nat.mod_eq_of_lt (by omega)
    simp only [hval]
    rw [dif_neg (by omega)]
    rw [hdr, List.take_left' rfl]
    rw [decodePacket_encode e hp]
    have hdr2 : (beBytes 4 (encodePacket e).length ++
        (encodePacket e ++ encodeElems es)).drop (4 + (encodePacket e).length) =
        encodeElems es := by
      rw [← List.append_assoc]
      exact List.drop_left' (by simp [beBytes_length])
    rw [hdr2, decodeElems_encode es hes]
termination_by es _ => sizeOf es

end

theorem slipUnstuff_slipStuff : ∀ (bs : List Nat), slipUnstuff (slipStuff bs) = bs
  | [] => rfl
  | x :: xs => by
    by_cases h1 : x = 192
    · subst h1
      simp [slipStuff, slipUnstuff, slipUnstuff_slipStuff xs]
    · by_cases h2 : x = 219
      · subst h2
        simp [slipStuff, slipUnstuff, slipUnstuff_slipStuff xs]
      · have hs : slipStuff (x :: xs) = x :: slipStuff xs := by
          simp [slipStuff, h1, h2]
        rw [hs, slipUnstuff.eq_def]
        simp [h2, slipUnstuff_slipStuff xs]

theorem slipStuff_no192 : ∀ (bs : List Nat), 192 ∉ slipStuff bs
  | [] => by simp [slipStuff]
  | x :: xs => by
    by_cases h1 : x = 192
    · subst h1
      simp [slipStuff, slipStuff_no192 xs]
    · by_cases h2 : x = 219
      · subst h2
        simp [slipStuff, slipStuff_no192 xs]
      · simp [slipStuff, h1, h2, slipStuff_no192 xs]
        omega

theorem splitC0_no192 : ∀ (xs : List Nat), 192 ∉ xs → splitC0 xs = ([], xs)
  | [], _ => by simp [splitC0]
  | x :: xs, h => by
    have hx : x ≠ 192 := by
      intro he
      exact h (by simp [he])
    have ht : 192 ∉ xs := by
      intro hm
      exact h (by simp [hm])
    simp [splitC0, splitC0_no192 xs ht, hx]

theorem splitC0_trailing : ∀ (xs : List Nat), 192 ∉ (splitC0 xs).2
  | [] => by simp [splitC0]
  | x :: xs => by
    have ih := splitC0_trailing xs
    by_cases hx : x = 192
    · subst hx
      simpa [splitC0] using ih
    · cases hA : (splitC0 xs).1 with
      | nil =>
        simp [splitC0, hA, hx]
        constructor
        · omega
        · exact ih
      | cons f fs =>
        simpa [splitC0, hA, hx] using ih

theorem splitC0_frame : ∀ (xs ys : List Nat), 192 ∉ xs →
    splitC0 (xs ++ 192 :: ys) = (xs :: (splitC0 ys).1, (splitC0 ys).2)
  | [], ys, _ => by simp [splitC0]
  | x :: xs, ys, h => by
    have hx : x ≠ 192 := by
      intro he
      exact h (by simp [he])
    have ih := splitC0_frame xs ys (by
      intro hm
      exact h (by simp [hm]))
    simp [splitC0, ih, hx]

theorem splitC0_append : ∀ (a b : List Nat), splitC0 (a ++ b) =
    ((splitC0 a).1 ++ (splitC0 ((splitC0 a).2 ++ b)).1, (splitC0 ((splitC0 a).2 ++ b)).2)
  | [], b => by simp [splitC0]
  | x :: a, b => by
    have ih := splitC0_append a b
    by_cases hx : x = 192
    · subst hx
      simp [splitC0, ih]
    · cases hA : (splitC0 a).1 with
      | nil =>
        cases hY : (splitC0 ((splitC0 a).2 ++ b)).1 with
        | nil =>
          simp [splitC0, ih, hA, hY, hx]
        | cons f fs =>
          simp [splitC0, ih, hA, hY, hx]
      | cons f fs =>
        simp [splitC0, ih, hA, hx]

theorem extractLP_short (buf : List Nat) (h : buf.length < 4) : extractLP buf = ([], buf) := by
  rw [extractLP.eq_def, dif_pos h]

theorem extractLP_mid (buf : List Nat) (h4 : ¬ buf.length < 4)
    (hL : buf.length < 4 + beVal (buf.take 4)) : extractLP buf = ([], buf) := by
  rw [extractLP.eq_def, dif_neg h4]
  simp only [dif_pos hL]

theorem extractLP_step (buf : List Nat) (h4 : ¬ buf.length < 4)
    (hL : ¬ buf.length < 4 + beVal (buf.take 4)) :
    extractLP buf =
      ((buf.drop 4).take (beVal (buf.take 4)) ::
          (extractLP (buf.drop (4 + beVal (buf.take 4)))).1,
        (extractLP (buf.drop (4 + beVal (buf.take 4)))).2) := by
  rw [extractLP.eq_def, dif_neg h4]
  simp only [dif_neg hL]

theorem extractLP_rest (buf : List Nat) : extractLP (extractLP buf).2 = ([], (extractLP buf).2) := by
  induction buf using extractLP.induct with
  | case1 buf h4 =>
    rw [extractLP_short buf h4]
    exact extractLP_short buf h4
  | case2 buf h4 L hL =>
    rw [extractLP_mid buf h4 hL]
    exact extractLP_mid buf h4 hL
  | case3 buf h4 L hL ih =>
    rw [extractLP_step buf h4 hL]
    exact ih

theorem extractLP_append (a b : List Nat) : extractLP (a ++ b) =
    ((extractLP a).1 ++ (extractLP ((extractLP a).2 ++ b)).1,
      (extractLP ((extractLP a).2 ++ b)).2) := by
  induction a using extractLP.induct with
  | case1 a h4 =>
    rw [extractLP_short a h4]
    simp
  | case2 a h4 L hL =>
    rw [extractLP_mid a h4 hL]
    simp
  | case3 a h4 L hL ih =>
    unfold_let L at hL ih
    have h4' : ¬ (a ++ b).length < 4 := by
      simp only [List.length_append]
      omega
    have htake : (a ++ b).take 4 = a.take 4 := by
      rw [List.take_append_eq_append_take]
      rw [Nat.sub_eq_zero_of_le (by omega)]
      simp
    have hL' : ¬ (a ++ b).length < 4 + beVal ((a ++ b).take 4) := by
      rw [htake]
      simp only [List.length_append]
      omega
    have hdrop4 : (a ++ b).drop 4 = a.drop 4 ++ b := by
      rw [List.drop_append_eq_append_drop]
      rw [Nat.sub_eq_zero_of_le (by omega)]
      simp
    have hframe : (a.drop 4 ++ b).take (beVal (a.take 4)) = (a.drop 4).take (beVal (a.take 4)) := by
      rw [List.take_append_eq_append_take]
      rw [Nat.sub_eq_zero_of_le (by
        simp only [List.length_drop]
        omega)]
      simp
    have hdropL : (a ++ b).drop (4 + beVal (a.take 4)) = a.drop (4 + beVal (a.take 4)) ++ b := by
      rw [List.drop_append_eq_append_drop]
      rw [Nat.sub_eq_zero_of_le (by omega)]
      simp
    rw [extractLP_step (a ++ b) h4' hL', extractLP_step a h4 hL, htake, hdrop4, hframe, hdropL,
      ih]
    simp

theorem extract_append (f : OSCFraming) (a b : List Nat) : extract f (a ++ b) =
    ((extract f a).1 ++ (extract f ((extract f a).2 ++ b)).1,
      (extract f ((extract f a).2 ++ b)).2) := by
  cases f with
  | OSC10 => exact extractLP_append a b
  | OSC11 =>
    simp only [extract]
    rw [splitC0_append a b]
    simp [List.filter_append]

theorem extract_rest_inert (f : OSCFraming) (buf : List Nat) :
    extract f (extract f buf).2 = ([], (extract f buf).2) := by
  cases f with
  | OSC10 => exact extractLP_rest buf
  | OSC11 => simp [extract, splitC0_no192 _ (splitC0_trailing buf)]

theorem feedAll_TCP (f : OSCFraming) : ∀ (chunks : List (List Nat)) (st : List Nat),
    extract f st = ([], st) →
    feedAll .TCP f st chunks = OSCDecoder.decode .TCP f st chunks.flatten
  | [], st, hst => by
    simp [feedAll, OSCDecoder.decode, hst]
  | c :: cs, st, hst => by
    have hin := extract_rest_inert f (st ++ c)
    have ih := feedAll_TCP f cs (extract f (st ++ c)).2 hin
    simp only [feedAll, OSCDecoder.decode, List.flatten_cons, ih]
    rw [← List.append_assoc, extract_append f (st ++ c) cs.flatten]
    simp

theorem encodePacket_ne_nil (p : OSCPacket) : encodePacket p ≠ [] := by
  cases p with
  | message addr args => simp [encodePacket, encodeMessageBytes, cstr]
  | bundle tt es => simp [encodePacket, bundleMarker]

theorem slipStuff_ne_nil (bs : List Nat) (h : bs ≠ []) : slipStuff bs ≠ [] := by
  cases bs with
  | nil => exact absurd rfl h
  | cons x xs =>
    by_cases h1 : x = 192
    · subst h1
      simp [slipStuff]
    · by_cases h2 : x = 219
      · subst h2
        simp [slipStuff]
      · simp [slipStuff, h1, h2]

theorem roundtrip_framed (m : OSCModes) (f : OSCFraming) (p : OSCPacket)
    (hw : wfPacket p = true) (hlen : (encodePacket p).length < 2147483648) :
    OSCDecoder.decode m f [] (OSCEncoder.encode m f p) = ([.ok p], []) := by
  cases m with
  | UDP =>
    cases f <;>
      simp [OSCDecoder.decode, OSCEncoder.encode, decodePacket_encode p hw]
  | TCP =>
    cases f with
    | OSC10 =>
      simp only [OSCDecoder.decode, OSCEncoder.encode, extract, List.nil_append]
      have hlenq : (beBytes 4 (encodePacket p).length ++ encodePacket p).length =
          4 + (encodePacket p).length := by
        simp [beBytes_length]
      have htk : (beBytes 4 (encodePacket p).length ++ encodePacket p).take 4 =
          beBytes 4 (encodePacket p).length := List.take_left' (beBytes_length 4 _)
      have hbv : beVal ((beBytes 4 (encodePacket p).length ++ encodePacket p).take 4) =
          (encodePacket p).length := by
        rw [htk, beVal_beBytes]
        exact Nat.mod_eq_of_lt (by norm_num; omega)
      rw [extractLP_step _ (by omega) (by rw [hbv]; omega)]
      rw [hbv, List.drop_left' (beBytes_length 4 _), List.take_length]
      have hdr : (beBytes 4 (encodePacket p).length ++ encodePacket p).drop
          (4 + (encodePacket p).length) = [] := by
        apply List.drop_eq_nil_of_le
        omega
      rw [hdr, extractLP_short [] (by simp)]
      simp [decodeFrameBytes, decodePacket_encode p hw]
    | OSC11 =>
      simp only [OSCDecoder.decode, OSCEncoder.encode, extract, List.nil_append]
      have hsp : splitC0 (192 :: (slipStuff (encodePacket p) ++ [192])) =
          ([] :: [slipStuff (encodePacket p)], []) := by
        rw [splitC0.eq_def]
        simp only [if_pos rfl]
        rw [splitC0_frame (slipStuff (encodePacket p)) [] (slipStuff_no192 _)]
        simp [splitC0]
      rw [hsp]
      have hne : (slipStuff (encodePacket p)).isEmpty = false := by
        rw [List.isEmpty_eq_false_iff_exists_mem]
        cases hsn : slipStuff (encodePacket p) with
        | nil => exact absurd hsn (slipStuff_ne_nil _ (encodePacket_ne_nil p))
        | cons y ys => exact ⟨y, by simp⟩
      simp [List.filter, hne, decodeFrameBytes, slipUnstuff_slipStuff,
        decodePacket_encode p hw]

theorem readCString_error_insufficient (bytes : List Nat) (e : OSCError)
    (h : readCString bytes = .error e) : e = .InsufficientData := by
  unfold readCString at h
  split at h
  · exact (Except.error.inj h).symm
  · simp at h

theorem decodeMessage_message (bytes : List Nat) :
    (∃ e, decodeMessage bytes = .error e) ∨
      ∃ a as, decodeMessage bytes = .ok (.message a as) := by
  rw [decodeMessage.eq_def]
  split
  · exact .inl ⟨_, rfl⟩
  split
  · split
    · exact .inr ⟨_, _, rfl⟩
    · split
      · exact .inl ⟨_, rfl⟩
      · split
        · split
          · exact .inl ⟨_, rfl⟩
          · exact .inr ⟨_, _, rfl⟩
        · exact .inl ⟨_, rfl⟩
  · exact .inl ⟨_, rfl⟩

theorem decodeBundleBody_bundle (bytes : List Nat) :
    (∃ e, decodeBundleBody bytes = .error e) ∨
      ∃ tt es, decodeBundleBody bytes = .ok (.bundle tt es) := by
  rw [decodeBundleBody.eq_def]
  split
  · exact .inl ⟨_, rfl⟩
  · split
    · exact .inl ⟨_, rfl⟩
    · exact .inr ⟨_, _, rfl⟩

theorem decodeMessage_invalid (bytes s rest : List Nat)
    (hrc : readCString bytes = .ok (s, rest)) (hs : ¬ s.head? = some 47) :
    decodeMessage bytes = .error .InvalidAddress := by
  rw [decodeMessage.eq_def, hrc]
  simp [hs]

theorem decodeMessage_addr (bytes addr : List Nat) (args : List OSCArg)
    (h : decodeMessage bytes = .ok (.message addr args)) :
    addr ≠ [] ∧ addr.head? = some 47 := by
  rw [decodeMessage.eq_def] at h
  split at h
  · simp at h
  next s rest heq =>
    split at h
    next hif =>
      have haddr : s = addr := by
        split at h
        · exact (OSCPacket.message.inj (Except.ok.inj h)).1
        · split at h
          · simp at h
          · split at h
            · split at h
              · simp at h
              · exact (OSCPacket.message.inj (Except.ok.inj h)).1
            · simp at h
      subst haddr
      refine ⟨?_, hif⟩
      intro hnil
      rw [hnil] at hif
      simp at hif
    · simp at h

theorem decodeAtom_no_unbalanced (t : Nat) (bytes : List Nat) :
    decodeAtom t bytes ≠ .error .UnbalancedArray := by
  rw [decodeAtom.eq_def]
  split
  · split <;> simp
  · split <;> simp
  · split
    next e heq =>
      have he := readCString_error_insufficient bytes e heq
      subst he
      simp
    next s r heq => simp
  · split
    · simp
    · dsimp only
      split <;> simp
  · simp
  · simp
  · simp
  · simp
  · split <;> simp
  · split <;> simp
  · split <;> simp
  · split <;> simp
  · split
    next e heq =>
      have he := readCString_error_insufficient bytes e heq
      subst he
      simp
    next s r heq => simp
  · split <;> simp
  · split <;> simp
  · simp

theorem walk_balanced : ∀ (tags bytes : List Nat) (cur : List OSCArg)
    (stack : List (List OSCArg)), brDepthOk tags stack.length = true →
    walk tags bytes cur stack ≠ .error .UnbalancedArray
  | [], bytes, cur, stack, hb => by
    rw [brDepthOk] at hb
    simp at hb
    subst hb
    rw [walk.eq_def]
    simp
  | t :: ts, bytes, cur, stack, hb => by
    rw [brDepthOk] at hb
    by_cases h1 : t = 91
    · subst h1
      simp only [if_pos rfl] at hb
      rw [walk_open]
      exact walk_balanced ts bytes [] (cur :: stack) (by simpa using hb)
    · by_cases h2 : t = 93
      · subst h2
        rw [if_neg (by decide), if_pos rfl] at hb
        simp only [Bool.and_eq_true, decide_eq_true_eq] at hb
        cases stack with
        | nil => simp at hb
        | cons parent stack2 =>
          rw [walk_close]
          exact walk_balanced ts bytes (parent ++ [.arr cur]) stack2 (by
            have := hb.2
            simpa using this)
      · rw [if_neg h1, if_neg h2] at hb
        rw [walk.eq_def]
        simp only [if_neg h1, if_neg h2]
        split
        next e heq =>
          intro hcon
          have he : e = .UnbalancedArray := (Except.error.inj hcon)
          subst he
          exact decodeAtom_no_unbalanced t bytes heq
        next a bytes2 heq =>
          exact walk_balanced ts bytes2 (cur ++ [a]) stack hb

/-- Claim C1, counterexample: the round-trip fails as universally stated, because a
Packet is constructible whose address does not start with a slash; decoding its
encoding yields InvalidAddress instead of the packet itself. -/
theorem C1_roundtrip_counterexample :
    OSCDecoder.decode .UDP .OSC10 [] (OSCEncoder.encode .UDP .OSC10 (.message [65] []))
      ≠ ([.ok (.message [65] [])], []) := by
  have henc : OSCEncoder.encode .UDP .OSC10 (.message [65] []) = [65, 0, 0, 0, 44, 0, 0, 0] := by
    simp [OSCEncoder.encode, encodePacket, encodeMessageBytes, tagList, payloadList, cstr, padLen]
  have hdec : decodePacket [65, 0, 0, 0, 44, 0, 0, 0] = .error .InvalidAddress := by
    rw [decodePacket.eq_def, dif_neg (by decide)]
    rfl
  have h2 : OSCDecoder.decode .UDP .OSC10 [] (OSCEncoder.encode .UDP .OSC10 (.message [65] []))
      = ([.error .InvalidAddress], []) := by
    rw [henc]
    show ([decodePacket [65, 0, 0, 0, 44, 0, 0, 0]], ([] : List Nat))
      = ([.error .InvalidAddress], [])
    rw [hdec]
  rw [h2]
  simp

/-- Claim C1, amended: for every well-formed Packet value p whose encoding fits the
signed 32-bit length header, and for every (mode, framing) combination, decoding
the bytes produced by encoding p under that mode and framing yields exactly the
packet p and an empty accumulator. -/
theorem C1_roundtrip_wellformed (m : OSCModes) (f : OSCFraming) (p : OSCPacket)
    (hw : wfPacket p = true) (hlen : (encodePacket p).length < 2147483648) :
    OSCDecoder.decode m f [] (OSCEncoder.encode m f p) = ([.ok p], []) :=
  roundtrip_framed m f p hw hlen

/-- Witness for C1 at a concrete well-formed packet. -/
theorem C1_roundtrip_wellformed_witness :
    OSCDecoder.decode .UDP .OSC10 [] (OSCEncoder.encode .UDP .OSC10 (.message [47] []))
      = ([.ok (.message [47] [])], []) :=
  C1_roundtrip_wellformed .UDP .OSC10 (.message [47] [])
    (by simp [wfPacket, wfAddr, wfStrBytes, wfArgs])
    (by simp [encodePacket, encodeMessageBytes, tagList, payloadList, cstr, padLen])

/-- Claim C2: feeding a byte stream to the stream-mode decoder in chunks yields,
concatenated across calls, the same ordered decode results and the same final
accumulator as feeding the whole stream in one call; and a call whose
accumulated bytes complete no frame yields zero packets. -/
theorem C2_streaming_chunks :
    (∀ (f : OSCFraming) (chunks : List (List Nat)),
        feedAll .TCP f [] chunks = OSCDecoder.decode .TCP f [] chunks.flatten) ∧
    (∀ (f : OSCFraming) (st chunk : List Nat), (extract f (st ++ chunk)).1 = [] →
        (OSCDecoder.decode .TCP f st chunk).1 = []) := by
  constructor
  · intro f chunks
    apply feedAll_TCP
    cases f with
    | OSC10 => exact extractLP_short [] (by norm_num)
    | OSC11 => simp [extract, splitC0]
  · intro f st chunk h
    simp [OSCDecoder.decode, h]

/-- Witness for C2: a single short chunk completes no frame and yields nothing. -/
theorem C2_streaming_chunks_witness :
    (OSCDecoder.decode .TCP .OSC10 [] [9]).1 = [] :=
  C2_streaming_chunks.2 .OSC10 [] [9]
    (by simp [extract, extractLP_short [9] (by norm_num)])

/-- Claim C3: packet decode dispatches on the first eight bytes; the bundle marker
selects bundle decode (so a success is a Bundle), anything else selects message
decode (so a success is a Message), and a readable cstring at that position that
does not start with the slash byte makes decoding fail with InvalidAddress. -/
theorem C3_packet_dispatch :
    (∀ (bytes : List Nat) (p : OSCPacket), bytes.take 8 = bundleMarker →
        decodePacket bytes = .ok p → ∃ tt es, p = .bundle tt es) ∧
    (∀ (bytes : List Nat) (p : OSCPacket), ¬ bytes.take 8 = bundleMarker →
        decodePacket bytes = .ok p → ∃ a as, p = .message a as) ∧
    (∀ (bytes s rest : List Nat), ¬ bytes.take 8 = bundleMarker →
        readCString bytes = .ok (s, rest) → ¬ s.head? = some 47 →
        decodePacket bytes = .error .InvalidAddress) := by
  refine ⟨?_, ?_, ?_⟩
  · intro bytes p hm h
    rw [decodePacket.eq_def, dif_pos hm] at h
    rcases decodeBundleBody_bundle (bytes.drop 8) with ⟨e, he⟩ | ⟨tt, es, hok⟩
    · rw [he] at h
      simp at h
    · rw [hok] at h
      exact ⟨tt, es, (Except.ok.inj h).symm⟩
  · intro bytes p hm h
    rw [decodePacket.eq_def, dif_neg hm] at h
    rcases decodeMessage_message bytes with ⟨e, he⟩ | ⟨a, as, hok⟩
    · rw [he] at h
      simp at h
    · rw [hok] at h
      exact ⟨a, as, (Except.ok.inj h).symm⟩
  · intro bytes s rest hm hrc hs
    rw [decodePacket.eq_def, dif_neg hm]
    exact decodeMessage_invalid bytes s rest hrc hs

/-- Witness for C3 at concrete buffers: a marker-headed buffer decodes to a
bundle, a slash-headed buffer decodes to a message, and a buffer whose cstring
does not start with a slash fails with InvalidAddress. -/
theorem C3_packet_dispatch_witness :
    (∃ tt es, OSCPacket.bundle 0 [] = OSCPacket.bundle tt es) ∧
    (∃ a as, OSCPacket.message [47] [] = OSCPacket.message a as) ∧
    decodePacket [65, 0, 0, 0] = .error .InvalidAddress := by
  have h0 : decodeElems [] = .ok [] := by
    rw [decodeElems.eq_def]
    simp
  have hb : decodePacket [35, 98, 117, 110, 100, 108, 101, 0, 0, 0, 0, 0, 0, 0, 0, 0]
      = .ok (.bundle 0 []) := by
    rw [decodePacket.eq_def, dif_pos (by decide)]
    rw [show List.drop 8 [35, 98, 117, 110, 100, 108, 101, 0, 0, 0, 0, 0, 0, 0, 0, 0]
      = ([0, 0, 0, 0, 0, 0, 0, 0] : List Nat) from rfl]
    rw [decodeBundleBody.eq_def, dif_neg (by decide)]
    rw [show List.drop 8 [0, 0, 0, 0, 0, 0, 0, 0] = ([] : List Nat) from rfl, h0]
    simp [beVal]
  have hm : decodePacket [47, 0, 0, 0] = .ok (.message [47] []) := by
    rw [decodePacket.eq_def, dif_neg (by decide)]
    rfl
  exact ⟨C3_packet_dispatch.1 _ _ (by decide) hb, C3_packet_dispatch.2.1 _ _ (by decide) hm,
    C3_packet_dispatch.2.2 [65, 0, 0, 0] [65] [] (by decide) rfl (by decide)⟩

/-- Claim C4: stream-mode SLIP encoding is exactly one END byte, the stuffed
packet bytes (END escaped to 219 220, ESC escaped to 219 221, so the body holds
no END byte and unstuffing recovers the packet bytes), then one END byte; and a
message whose blob holds END and ESC bytes survives a SLIP round-trip
byte-identically. -/
theorem C4_slip_framing :
    (∀ p : OSCPacket, OSCEncoder.encode .TCP .OSC11 p =
        192 :: (slipStuff (encodePacket p) ++ [192])) ∧
    (∀ bs : List Nat, slipUnstuff (slipStuff bs) = bs) ∧
    (∀ bs : List Nat, 192 ∉ slipStuff bs) ∧
    OSCDecoder.decode .TCP .OSC11 []
        (OSCEncoder.encode .TCP .OSC11
          (.message [47, 98] [.blob [0, 192, 219, 255, 192, 219, 0]]))
      = ([.ok (.message [47, 98] [.blob [0, 192, 219, 255, 192, 219, 0]])], []) := by
  refine ⟨fun p => rfl, slipUnstuff_slipStuff, slipStuff_no192, ?_⟩
  apply roundtrip_framed
  · simp [wfPacket, wfAddr, wfStrBytes, wfArgs, wfArg]
  · simp [encodePacket, encodeMessageBytes, tagList, tagOfArg, payloadList, payloadOf, cstr,
      padLen, beBytes]

/-- Claim C5: a buffer that is one valid address cstring (starting with the slash
byte) with no bytes after it decodes to a Message with that address and an
empty argument list. -/
theorem C5_legacy_no_tagstring (bytes addr : List Nat)
    (h : readCString bytes = .ok (addr, [])) (ha : addr.head? = some 47) :
    decodeMessage bytes = .ok (.message addr []) := by
  rw [decodeMessage.eq_def, h]
  simp [ha]

/-- Witness for C5 at the padded address bytes of a two-character address. -/
theorem C5_legacy_no_tagstring_witness :
    decodeMessage [47, 83, 0, 0] = .ok (.message [47, 83] []) :=
  C5_legacy_no_tagstring [47, 83, 0, 0] [47, 83] rfl rfl

/-- Claim C6: in the tag-string walk, a close bracket with no open array context
fails with UnbalancedArray, reaching the end of the tags with a context still
open fails with UnbalancedArray, and a tag string whose brackets are balanced
never produces the UnbalancedArray error. -/
theorem C6_unbalanced_array :
    (∀ (ts bytes : List Nat) (cur : List OSCArg),
        walk (93 :: ts) bytes cur [] = .error .UnbalancedArray) ∧
    (∀ (bytes : List Nat) (cur s : List OSCArg) (ss : List (List OSCArg)),
        walk [] bytes cur (s :: ss) = .error .UnbalancedArray) ∧
    (∀ (tags bytes : List Nat), brDepthOk tags 0 = true →
        walk tags bytes [] [] ≠ .error .UnbalancedArray) := by
  refine ⟨?_, ?_, ?_⟩
  · intro ts bytes cur
    rw [walk.eq_def]
    simp
  · intro bytes cur s ss
    rw [walk.eq_def]
  · intro tags bytes hb
    exact walk_balanced tags bytes [] [] hb

/-- Witness for C6 at concrete tag strings. -/
theorem C6_unbalanced_array_witness :
    walk [93] [] [] [] = .error .UnbalancedArray ∧
    walk [] [] [] [[]] = .error .UnbalancedArray ∧
    walk [91, 105, 93] [0, 0, 0, 5] [] [] ≠ .error .UnbalancedArray :=
  ⟨C6_unbalanced_array.1 [] [] [], C6_unbalanced_array.2.1 [] [] [] [],
    C6_unbalanced_array.2.2 [91, 105, 93] [0, 0, 0, 5] (by decide)⟩

/-- Claim C7, counterexample: the OSCMessage constructor of the types module
performs no address validation, so a Message with an empty address (which
neither is non-empty nor starts with a slash) is constructible. -/
theorem C7_address_counterexample :
    mkOSCMessage "" [] = some ⟨"", []⟩ ∧ "".data.head? = none :=
  ⟨rfl, rfl⟩

/-- Claim C7, amended: the decoder enforces the address invariant, producing only
Messages whose address is non-empty and starts with the slash byte, while the
pydantic constructor itself accepts every address string unvalidated. -/
theorem C7_decoder_address_invariant :
    (∀ (bytes addr : List Nat) (args : List OSCArg),
        decodeMessage bytes = .ok (.message addr args) → addr ≠ [] ∧ addr.head? = some 47) ∧
    (∀ (s : String) (as : List PyOSCArg), mkOSCMessage s as = some ⟨s, as⟩) :=
  ⟨fun bytes addr args h => decodeMessage_addr bytes addr args h, fun _ _ => rfl⟩

/-- Witness for C7 at a concrete decoded message. -/
theorem C7_decoder_address_invariant_witness :
    ([47] : List Nat) ≠ [] ∧ ([47] : List Nat).head? = some 47 :=
  C7_decoder_address_invariant.1 [47, 0, 0, 0] [47] [] rfl

/-- Claim C8: every value of the packet data model is immutable once constructed,
because the shared frozen Config makes every attribute assignment raise, and
equality between model values is structural: two values with equal fields are
equal. -/
theorem C8_frozen_structural :
    (∀ (x : OSCInt) (upd : OSCInt → OSCInt), frozenSetattr x upd = .frozenError) ∧
    (∀ (x : OSCFloat) (upd : OSCFloat → OSCFloat), frozenSetattr x upd = .frozenError) ∧
    (∀ (x : OSCString) (upd : OSCString → OSCString), frozenSetattr x upd = .frozenError) ∧
    (∀ (x : OSCBlob) (upd : OSCBlob → OSCBlob), frozenSetattr x upd = .frozenError) ∧
    (∀ (x : OSCTrue) (upd : OSCTrue → OSCTrue), frozenSetattr x upd = .frozenError) ∧
    (∀ (x : OSCFalse) (upd : OSCFalse → OSCFalse), frozenSetattr x upd = .frozenError) ∧
    (∀ (x : OSCNil) (upd : OSCNil → OSCNil), frozenSetattr x upd = .frozenError) ∧
    (∀ (x : OSCImpulse) (upd : OSCImpulse → OSCImpulse), frozenSetattr x upd = .frozenError) ∧
    (∀ (x : OSCInt64) (upd : OSCInt64 → OSCInt64), frozenSetattr x upd = .frozenError) ∧
    (∀ (x : OSCDouble) (upd : OSCDouble → OSCDouble), frozenSetattr x upd = .frozenError) ∧
    (∀ (x : OSCTimeTag) (upd : OSCTimeTag → OSCTimeTag), frozenSetattr x upd = .frozenError) ∧
    (∀ (x : OSCChar) (upd : OSCChar → OSCChar), frozenSetattr x upd = .frozenError) ∧
    (∀ (x : OSCSymbol) (upd : OSCSymbol → OSCSymbol), frozenSetattr x upd = .frozenError) ∧
    (∀ (x : OSCRGBA) (upd : OSCRGBA → OSCRGBA), frozenSetattr x upd = .frozenError) ∧
    (∀ (x : OSCMidi) (upd : OSCMidi → OSCMidi), frozenSetattr x upd = .frozenError) ∧
    (∀ (x : OSCMessage) (upd : OSCMessage → OSCMessage), frozenSetattr x upd = .frozenError) ∧
    (∀ (x : PyOSCArg) (upd : PyOSCArg → PyOSCArg), frozenSetattr x upd = .frozenError) ∧
    (∀ (x : PyOSCPacket) (upd : PyOSCPacket → PyOSCPacket), frozenSetattr x upd = .frozenError) ∧
    (∀ x y : OSCInt, x.value = y.value → x = y) ∧
    (∀ x y : OSCFloat, x.value = y.value → x = y) ∧
    (∀ x y : OSCString, x.value = y.value → x = y) ∧
    (∀ x y : OSCBlob, x.value = y.value → x = y) ∧
    (∀ x y : OSCTrue, x = y) ∧
    (∀ x y : OSCFalse, x = y) ∧
    (∀ x y : OSCNil, x = y) ∧
    (∀ x y : OSCImpulse, x = y) ∧
    (∀ x y : OSCInt64, x.value = y.value → x = y) ∧
    (∀ x y : OSCDouble, x.value = y.value → x = y) ∧
    (∀ x y : OSCTimeTag, x.value = y.value → x = y) ∧
    (∀ x y : OSCChar, x.value = y.value → x = y) ∧
    (∀ x y : OSCSymbol, x.value = y.value → x = y) ∧
    (∀ x y : OSCRGBA, x.r = y.r → x.g = y.g → x.b = y.b → x.a = y.a → x = y) ∧
    (∀ x y : OSCMidi, x.port_id = y.port_id → x.status = y.status → x.data1 = y.data1 →
        x.data2 = y.data2 → x = y) ∧
    (∀ xs ys : List PyOSCArg, PyOSCArg.aArray xs = PyOSCArg.aArray ys ↔ xs = ys) ∧
    (∀ x y : OSCMessage, x.address = y.address → x.args = y.args → x = y) ∧
    (∀ (t1 t2 : Int) (es1 es2 : List PyOSCPacket),
        PyOSCPacket.ofBundle t1 es1 = PyOSCPacket.ofBundle t2 es2 ↔ t1 = t2 ∧ es1 = es2) := by
  refine ⟨fun x upd => rfl, fun x upd => rfl, fun x upd => rfl, fun x upd => rfl,
    fun x upd => rfl, fun x upd => rfl, fun x upd => rfl, fun x upd => rfl,
    fun x upd => rfl, fun x upd => rfl, fun x upd => rfl, fun x upd => rfl,
    fun x upd => rfl, fun x upd => rfl, fun x upd => rfl, fun x upd => rfl,
    fun x upd => rfl, fun x upd => rfl, ?_, ?_, ?_, ?_, ?_, ?_, ?_, ?_, ?_, ?_, ?_, ?_, ?_,
    ?_, ?_, ?_, ?_, ?_⟩
  · intro x y h
    cases x
    cases y
    simp_all
  · intro x y h
    cases x
    cases y
    simp_all
  · intro x y h
    cases x
    cases y
    simp_all
  · intro x y h
    cases x
    cases y
    simp_all
  · intro x y
    cases x
    cases y
    rfl
  · intro x y
    cases x
    cases y
    rfl
  · intro x y
    cases x
    cases y
    rfl
  · intro x y
    cases x
    cases y
    rfl
  · intro x y h
    cases x
    cases y
    simp_all
  · intro x y h
    cases x
    cases y
    simp_all
  · intro x y h
    cases x
    cases y
    simp_all
  · intro x y h
    cases x
    cases y
    simp_all
  · intro x y h
    cases x
    cases y
    simp_all
  · intro x y h1 h2 h3 h4
    cases x
    cases y
    simp_all
  · intro x y h1 h2 h3 h4
    cases x
    cases y
    simp_all
  · intro xs ys
    simp
  · intro x y h1 h2
    cases x
    cases y
    simp_all
  · intro t1 t2 es1 es2
    simp

/-- Witness for C8 at concrete values of the model. -/
theorem C8_frozen_structural_witness :
    frozenSetattr (OSCInt.mk 3) (fun z => z) = .frozenError ∧
    OSCInt.mk 3 = OSCInt.mk 3 ∧
    OSCMessage.mk "/a" [] = OSCMessage.mk "/a" [] ∧
    OSCRGBA.mk 1 2 3 4 = OSCRGBA.mk 1 2 3 4 :=
  ⟨C8_frozen_structural.1 (OSCInt.mk 3) (fun z => z),
    (C8_frozen_structural.2.2.2.2.2.2.2.2.2.2.2.2.2.2.2.2.2.2.1 (OSCInt.mk 3) (OSCInt.mk 3) rfl),
    (C8_frozen_structural.2.2.2.2.2.2.2.2.2.2.2.2.2.2.2.2.2.2.2.2.2.2.2.2.2.2.2.2.2.2.2.2.2.2.1
      (OSCMessage.mk "/a" []) (OSCMessage.mk "/a" []) rfl rfl),
    (C8_frozen_structural.2.2.2.2.2.2.2.2.2.2.2.2.2.2.2.2.2.2.2.2.2.2.2.2.2.2.2.2.2.2.2.1
      (OSCRGBA.mk 1 2 3 4) (OSCRGBA.mk 1 2 3 4) rfl rfl rfl rfl)⟩

/-- Claim C9: the impulse type has exactly one value up to equality, so the
module-level shared instance OSC_IMPULSE equals every freshly constructed
OSCImpulse value. -/
theorem C9_impulse_singleton : ∀ x : OSCImpulse, x = OSC_IMPULSE :=
  fun _ => rfl

/-- Claim C10: the OSCChar constructor accepts every string, including the empty
string and strings longer than one character, with no length validation. -/
theorem C10_char_accepts_any_string :
    (∀ s : String, mkOSCChar s = some ⟨s⟩) ∧
    mkOSCChar "" = some ⟨""⟩ ∧ mkOSCChar "ab" = some ⟨"ab"⟩ :=
  ⟨fun _ => rfl, rfl, rfl⟩
